import Mathlib

/-!
Verification development for the rufus web-scraper repository
(files rufus.py and rufus_rag.py).

The crawl-and-extract engine is shallowly embedded: browser, HTML parsing
and NLP collaborators are modelled at their interface boundary as explicit
inputs (an environment of per-address responses, and a lemmatizer given as
a function parameter).  Machine-level concerns (bytes, unicode case folding
beyond ASCII) are out of scope for the properties below, which only involve
ASCII data.
-/

namespace Rufus

/-! ### Character and string utilities

Python whitespace and string primitives used by the source, re-implemented
over the character list underlying a Lean string.  All ASCII-faithful. -/

/-- The characters matched by the Python regex class backslash-s
(ASCII range), and stripped by str.strip(). -/
def isPyWs (c : Char) : Bool :=
  c = ' ' || c = '\t' || c = '\n' || c = '\r' || c = Char.ofNat 11 || c = Char.ofNat 12

/-- State machine for the regex substitution sub(backslash-s+, single space):
the flag records whether we are inside a whitespace run whose single
replacement space has already been emitted. -/
def collapseWsAux : Bool → List Char → List Char
  | _, [] => []
  | inWs, c :: rest =>
    if isPyWs c then
      if inWs then collapseWsAux true rest
      else ' ' :: collapseWsAux true rest
    else c :: collapseWsAux false rest

/-- re.sub applied with pattern backslash-s+ and replacement a single space:
every maximal whitespace run becomes one space. -/
def collapseWs (l : List Char) : List Char := collapseWsAux false l

/-- Remove the trailing whitespace run of a character list. -/
def dropTrailingWs (l : List Char) : List Char :=
  l.foldr (fun c acc => if acc.isEmpty && isPyWs c then [] else c :: acc) []

/-- Python str.strip(): remove leading and trailing whitespace. -/
def stripPy (l : List Char) : List Char := dropTrailingWs (l.dropWhile isPyWs)

/-- Whether the first list is an initial segment of the second. -/
def leadMatch : List Char → List Char → Bool
  | [], _ => true
  | _ :: _, [] => false
  | p :: ps, h :: hs => p = h && leadMatch ps hs

/-- Whether pat occurs as a contiguous substring of the second list
(the Python expression pat in s). -/
def hasSub (pat : List Char) : List Char → Bool
  | [] => pat.isEmpty
  | h :: hs => leadMatch pat (h :: hs) || hasSub pat hs

/-- Python substring containment: pat in s. -/
def strContains (s pat : String) : Bool := hasSub pat.data s.data

/-- Python str.startswith(pre). -/
def strStartsWith (s pre : String) : Bool := leadMatch pre.data s.data

/-- Python str.lower() (ASCII letters; the data in all properties is ASCII). -/
def strToLower (s : String) : String := String.mk (s.data.map Char.toLower)

/-- The whitespace-normalization applied by _extract_data_from_page:
element.get_text with strip set, followed by the whitespace-run-collapsing
regex substitution.  So: strip the ends, then collapse every run. -/
def normContent (s : String) : String := String.mk (collapseWs (stripPy s.data))

/-- Written from the specification words, for comparison with normContent:
every run of whitespace is collapsed to a single space, and leading and
trailing whitespace is trimmed away. -/
def specNormalize (s : String) : String := String.mk (stripPy (collapseWs s.data))

/-! ### Records and the relevance filter (filter_data)

A record is the structured_data dictionary built by _extract_data_from_page:
keys prompt, page, content. -/

structure Record where
  prompt : String
  page : Nat
  content : String
deriving DecidableEq, Repr

/-- The fixed keyword list of filter_data (identical in both files). -/
def keywords : List String := ["job", "employment", "career", "internship", "fellowship"]

/-- RufusClient._is_relevant in rufus.py: the spacy lemmatizer is an external
collaborator, passed here as the function lem giving the lemmatized tokens of
a text; the check is whether any token lemma is among the keywords. -/
def is_relevant (lem : String → List String) (text : String) : Bool :=
  (lem text).any (fun t => keywords.contains t)

/-- The loop body of RufusClient.filter_data in rufus.py: walk the records in
order, keeping an item when its lowercased content is relevant and not yet in
the seen set (then adding it to seen). -/
def filterAux (lem : String → List String) : List Record → List String → List Record
  | [], _ => []
  | item :: rest, seen =>
    let content := strToLower item.content
    if is_relevant lem content && !seen.contains content then
      item :: filterAux lem rest (content :: seen)
    else
      filterAux lem rest seen

/-- RufusClient.filter_data in rufus.py (relevance plus dedup by lowercased
content, starting from an empty seen set). -/
def filter_data (lem : String → List String) (data : List Record) : List Record :=
  filterAux lem data []

/-- RufusClient.filter_data in rufus_rag.py: plain list comprehension keeping
an item when any keyword occurs as a substring of its lowercased content.
No lemmatization and no seen set. -/
def rag_filter_data (data : List Record) : List Record :=
  data.filter (fun item => keywords.any (fun k => strContains (strToLower item.content) k))

/-- A concrete lemmatization collaborator used to instantiate theorems at
closed inputs: each whitespace-separated token is its own dictionary base
form (adequate for uninflected words such as job or jobless). -/
def tokensAux : List Char → List Char → List String
  | [], acc => if acc.isEmpty then [] else [String.mk acc.reverse]
  | c :: rest, acc =>
    if isPyWs c then
      if acc.isEmpty then tokensAux rest []
      else String.mk acc.reverse :: tokensAux rest []
    else tokensAux rest (c :: acc)

/-- See tokensAux: the identity lemmatizer over whitespace tokens. -/
def lemModel (s : String) : List String := tokensAux s.data []

example : lemModel "job fair" = ["job", "fair"] := by decide
example : is_relevant lemModel "job fair" = true := by decide
example : strContains "jobless" "job" = true := by decide
example : normContent "Hiring   now\n\tfor  interns" = "Hiring now for interns" := by decide

/-! ### The navigation protocol (_navigate_to_url)

The retry loop is identical in both files.  Each loop iteration issues one
page.goto attempt (followed, on success, by the settle steps: wait for
network idle, scroll, dwell).  On a playwright timeout it logs, sleeps
2 to the power attempt seconds and iterates; on any other exception it logs
and returns at once; after the loop it logs the failed-after-retries
diagnostic and returns.  The function never raises: its outcome is visible
only through which log path was taken, modelled here as a NavResult. -/

/-- What the render target does on one goto attempt. -/
inductive NavOutcome
  | success
  | timeout
  | unexpected
deriving DecidableEq, Repr

/-- The observable actions of the retry loop: one navigation attempt
(goto plus the waits), or a backoff sleep of the given number of seconds. -/
inductive NavAction
  | attemptNav
  | sleep (secs : Nat)
deriving DecidableEq, Repr

/-- Which log path _navigate_to_url ends on. -/
inductive NavResult
  | ok
  | errUnexpected
  | errTimeoutExhausted
deriving DecidableEq, Repr

/-- The retry loop of _navigate_to_url: attempt is the 0-indexed loop
counter, the second argument the number of remaining iterations. -/
def navGo (outcome : Nat → NavOutcome) : Nat → Nat → List NavAction × NavResult
  | _, 0 => ([], NavResult.errTimeoutExhausted)
  | attempt, k + 1 =>
    match outcome attempt with
    | NavOutcome.success => ([NavAction.attemptNav], NavResult.ok)
    | NavOutcome.timeout =>
      let rest := navGo outcome (attempt + 1) k
      (NavAction.attemptNav :: NavAction.sleep (2 ^ attempt) :: rest.1, rest.2)
    | NavOutcome.unexpected => ([NavAction.attemptNav], NavResult.errUnexpected)

/-- _navigate_to_url: run the loop for max_retries iterations from attempt 0,
given the per-attempt behavior of the render target for this address. -/
def navigate_to_url (outcome : Nat → NavOutcome) (max_retries : Nat) :
    List NavAction × NavResult :=
  navGo outcome 0 max_retries

/-- Number of navigation attempts in a trace. -/
def attemptCount (tr : List NavAction) : Nat :=
  tr.countP (fun a => match a with | NavAction.attemptNav => true | _ => false)

/-- The backoff sleep durations of a trace, in order. -/
def sleepsOf (tr : List NavAction) : List Nat :=
  tr.filterMap (fun a => match a with | NavAction.sleep n => some n | _ => none)

/-! ### The crawl controller (_crawl_links) and scrape

The collaborators are modelled at their interface boundary by an
environment giving, per address: the render-target behavior of each
navigation attempt, the extraction outcome (the texts of the elements
matching the selector, or failure), the href values of the anchor elements,
and whether the single goto guarding the descent into a discovered link
succeeds on a given attempt. -/

structure Env where
  navAttempts : String → Nat → NavOutcome
  extract : String → Option (List String)
  links : String → List String
  gotoAttempt : String → Nat → Bool

/-- The two near-duplicate crawl implementations: base is rufus.py,
rag is rufus_rag.py. -/
inductive Variant
  | base
  | rag
deriving DecidableEq, Repr

/-- Whether the goto guarding the recursion into a discovered link succeeds.
rufus.py issues a single new_page.goto; rufus_rag.py (_retry_navigation)
retries the goto up to 3 times and recurses after the first success. -/
def gotoSucceeds (e : Env) (v : Variant) (link : String) : Bool :=
  match v with
  | Variant.base => e.gotoAttempt link 0
  | Variant.rag => (List.range 3).any (fun a => e.gotoAttempt link a)

/-- The log path _navigate_to_url takes for this address. -/
def navResultOf (e : Env) (mr : Nat) (url : String) : NavResult :=
  (navigate_to_url (e.navAttempts url) mr).2

/-- Observable crawl events, recorded in order: an address admitted into the
visited set, the navigation of an address (with its outcome), and the call
of _extract_data_from_page on an address. -/
inductive Event
  | admitted (url : String)
  | navigated (url : String) (r : NavResult)
  | extractAttempted (url : String)
deriving DecidableEq, Repr

/-- The mutable state threaded through a crawl: the visited set (a Python
set, here a list without duplicates, newest first), the process-wide
accumulator self.all_data, and the event trace. -/
structure CrawlState where
  visited : List String
  all_data : List Record
  trace : List Event
deriving DecidableEq, Repr

/-- Number of navigation events in a crawl trace. -/
def navCount (tr : List Event) : Nat :=
  tr.countP (fun ev => match ev with | Event.navigated _ _ => true | _ => false)

/-- The state right after admission, navigation and a failed extraction
attempt of url: the address joins the visited set, the trace records the
three events, and all_data is untouched. -/
def admitState (e : Env) (mr : Nat) (url : String) (s : CrawlState) : CrawlState :=
  ⟨url :: s.visited, s.all_data,
    s.trace ++ [Event.admitted url, Event.navigated url (navResultOf e mr url),
      Event.extractAttempted url]⟩

/-- The state after admission, navigation and a successful extraction of the
given element texts: one record per element, with page set to the size of
the visited set after the admission, and content whitespace-normalized. -/
def extractState (e : Env) (mr : Nat) (prompt url : String) (texts : List String)
    (s : CrawlState) : CrawlState :=
  ⟨url :: s.visited,
    s.all_data ++ texts.map (fun t =>
      ⟨prompt, (url :: s.visited).length, normContent t⟩),
    s.trace ++ [Event.admitted url, Event.navigated url (navResultOf e mr url),
      Event.extractAttempted url]⟩

/-- The body of the per-link loop of _crawl_links, with the recursive
descent abstracted as recurse: a link is followed when it is truthy and
starts with http (the startsWith guard covers both), is not yet visited,
and the goto guarding the descent succeeds; every failure on the way is
caught, logged and skips just this link. -/
def linkStep (e : Env) (v : Variant) (recurse : String → CrawlState → CrawlState)
    (acc : CrawlState) (link : String) : CrawlState :=
  if strStartsWith link "http" = true ∧ link ∉ acc.visited then
    if gotoSucceeds e v link = true then recurse link acc else acc
  else acc

/-- _crawl_links, fuel-indexed (the Python recursion has no fuel; the
recursion is bounded because every call either returns at the admission
guard or grows the visited set, which the guard caps at the page budget —
the fuel-adequacy theorem below makes this exact).  The body mirrors the
source: admission guard, navigation whose failures are swallowed, an
unconditional extraction attempt, then the loop over the discovered hrefs.
The base variant returns on extraction failure before discovering links;
the rag variant falls through to link discovery. -/
def crawlFuel (e : Env) (mr : Nat) (v : Variant) (prompt : String) (pages : Nat) :
    Nat → String → CrawlState → CrawlState
  | 0, _, s => s
  | fuel + 1, url, s =>
    if pages ≤ s.visited.length ∨ url ∈ s.visited then s
    else
      match e.extract url with
      | none =>
        match v with
        | Variant.base => admitState e mr url s
        | Variant.rag =>
          (e.links url).foldl
            (linkStep e v (fun l a => crawlFuel e mr v prompt pages fuel l a))
            (admitState e mr url s)
      | some texts =>
        (e.links url).foldl
          (linkStep e v (fun l a => crawlFuel e mr v prompt pages fuel l a))
          (extractState e mr prompt url texts s)

/-- A crawl state whose visited set and trace are fresh, with the given
accumulator contents carried over from the client. -/
def initCrawlState (d : List Record) : CrawlState := ⟨[], d, []⟩

/-- RufusClient.__init__: all_data is created here, once per client. -/
structure RufusClient where
  max_retries : Nat
  all_data : List Record
deriving DecidableEq, Repr

/-- RufusClient with the default constructor arguments. -/
def RufusClient.make : RufusClient := ⟨3, []⟩

/-- RufusClient.scrape: a fresh visited set, a crawl from the seed address
that appends into self.all_data, then filter_data over self.all_data.
Returns the filtered records and the client as it is after the call. -/
def scrape (lem : String → List String) (c : RufusClient) (e : Env)
    (url prompt : String) (pages : Nat) : List Record × RufusClient :=
  let s := crawlFuel e c.max_retries Variant.base prompt pages pages url
    (initCrawlState c.all_data)
  (filter_data lem s.all_data, ⟨c.max_retries, s.all_data⟩)

/-! ### Generic fold lemmas -/

theorem foldlPreserve {α β : Type} (P : β → Prop) (f : β → α → β)
    (h : ∀ b a, P b → P (f b a)) : ∀ (l : List α) (b : β), P b → P (l.foldl f b)
  | [], _, hb => hb
  | a :: l, b, hb => foldlPreserve P f h l (f b a) (h b a hb)

theorem foldlRel {α β : Type} (R : β → β → Prop)
    (htrans : ∀ a b c, R a b → R b c → R a c) (hrefl : ∀ b, R b b)
    (f : β → α → β) (h : ∀ b a, R b (f b a)) :
    ∀ (l : List α) (b : β), R b (l.foldl f b)
  | [], b => hrefl b
  | a :: l, b => htrans _ _ _ (h b a) (foldlRel R htrans hrefl f h l (f b a))

theorem foldlCongr {α β : Type} (P : β → Prop) (f g : β → α → β)
    (hfg : ∀ b a, P b → f b a = g b a) (hP : ∀ b a, P b → P (f b a)) :
    ∀ (l : List α) (b : β), P b → l.foldl f b = l.foldl g b
  | [], _, _ => rfl
  | a :: l, b, hb => by
    simp only [List.foldl_cons]
    rw [← hfg b a hb]
    exact foldlCongr P f g hfg hP l (f b a) (hP b a hb)

/-! ### Growth of the crawl state

A crawl only ever pushes new addresses onto the visited set and appends new
records to the accumulator: the input visited set is a suffix of the output
one and the input accumulator a contiguous initial segment of the output. -/

def stateLe (s₁ s₂ : CrawlState) : Prop :=
  (∃ t, s₂.visited = t ++ s₁.visited) ∧ (∃ u, s₂.all_data = s₁.all_data ++ u)

theorem stateLe_refl (s : CrawlState) : stateLe s s :=
  ⟨⟨[], rfl⟩, ⟨[], (List.append_nil _).symm⟩⟩

theorem stateLe_trans {a b c : CrawlState} (h₁ : stateLe a b) (h₂ : stateLe b c) :
    stateLe a c := by
  obtain ⟨⟨t₁, hv₁⟩, ⟨u₁, hd₁⟩⟩ := h₁
  obtain ⟨⟨t₂, hv₂⟩, ⟨u₂, hd₂⟩⟩ := h₂
  exact ⟨⟨t₂ ++ t₁, by rw [hv₂, hv₁, List.append_assoc]⟩,
    ⟨u₁ ++ u₂, by rw [hd₂, hd₁, List.append_assoc]⟩⟩

theorem stateLe_admitState (e : Env) (mr : Nat) (url : String) (s : CrawlState) :
    stateLe s (admitState e mr url s) :=
  ⟨⟨[url], rfl⟩, ⟨[], (List.append_nil _).symm⟩⟩

theorem stateLe_extract (e : Env) (mr : Nat) (prompt url : String)
    (texts : List String) (s : CrawlState) :
    stateLe s (extractState e mr prompt url texts s) :=
  ⟨⟨[url], rfl⟩, ⟨_, rfl⟩⟩

theorem stateLe_length {s₁ s₂ : CrawlState} (h : stateLe s₁ s₂) :
    s₁.visited.length ≤ s₂.visited.length := by
  obtain ⟨⟨t, hv⟩, _⟩ := h
  rw [hv, List.length_append]
  omega

theorem crawl_mono (e : Env) (mr : Nat) (v : Variant) (prompt : String) (pages : Nat) :
    ∀ (fuel : Nat) (url : String) (s : CrawlState),
      stateLe s (crawlFuel e mr v prompt pages fuel url s)
  | 0, _, s => stateLe_refl s
  | fuel + 1, url, s => by
    simp only [crawlFuel]
    by_cases hg : pages ≤ s.visited.length ∨ url ∈ s.visited
    · rw [if_pos hg]; exact stateLe_refl s
    · rw [if_neg hg]
      have hstep : ∀ (acc : CrawlState) (link : String),
          stateLe acc (linkStep e v
            (fun l a => crawlFuel e mr v prompt pages fuel l a) acc link) := by
        intro acc link
        unfold linkStep
        split
        · split
          · exact crawl_mono e mr v prompt pages fuel link acc
          · exact stateLe_refl acc
        · exact stateLe_refl acc
      cases he : e.extract url with
      | none =>
        cases v with
        | base => exact stateLe_admitState e mr url s
        | rag =>
          exact stateLe_trans (stateLe_admitState e mr url s)
            (foldlRel stateLe (fun _ _ _ => stateLe_trans) stateLe_refl _ hstep
              (e.links url) (admitState e mr url s))
      | some texts =>
        exact stateLe_trans (stateLe_extract e mr prompt url texts s)
          (foldlRel stateLe (fun _ _ _ => stateLe_trans) stateLe_refl _ hstep
            (e.links url) (extractState e mr prompt url texts s))

/-! ### The Frontier invariant

Admission is the only place the visited set changes; it rejects when the
budget is reached or the address is already present, so every reachable
crawl state has a duplicate-free visited set of size at most the budget,
and exactly one navigation event per admission. -/

def crawlInv (pages : Nat) (s : CrawlState) : Prop :=
  s.visited.Nodup ∧ s.visited.length ≤ pages ∧ navCount s.trace = s.visited.length

theorem navCount_append (t₁ t₂ : List Event) :
    navCount (t₁ ++ t₂) = navCount t₁ + navCount t₂ :=
  List.countP_append _ _ _

theorem navCount_three (url : String) (r : NavResult) :
    navCount [Event.admitted url, Event.navigated url r, Event.extractAttempted url] = 1 :=
  rfl

theorem crawlInv_admitState (e : Env) (mr pages : Nat) (url : String) (s : CrawlState)
    (hinv : crawlInv pages s) (hlen : s.visited.length < pages)
    (hmem : url ∉ s.visited) : crawlInv pages (admitState e mr url s) := by
  obtain ⟨hnd, _, hnav⟩ := hinv
  refine ⟨List.nodup_cons.mpr ⟨hmem, hnd⟩, by simp only [admitState]; simpa using hlen, ?_⟩
  simp only [admitState, navCount_append, navCount_three, hnav]
  simp

theorem crawlInv_extract (e : Env) (mr pages : Nat) (prompt url : String)
    (texts : List String) (s : CrawlState)
    (hinv : crawlInv pages s) (hlen : s.visited.length < pages)
    (hmem : url ∉ s.visited) : crawlInv pages (extractState e mr prompt url texts s) := by
  obtain ⟨hnd, _, hnav⟩ := hinv
  refine ⟨List.nodup_cons.mpr ⟨hmem, hnd⟩, by simp only [extractState]; simpa using hlen, ?_⟩
  simp only [extractState, navCount_append, navCount_three, hnav]
  simp

theorem crawl_inv (e : Env) (mr : Nat) (v : Variant) (prompt : String) (pages : Nat) :
    ∀ (fuel : Nat) (url : String) (s : CrawlState),
      crawlInv pages s → crawlInv pages (crawlFuel e mr v prompt pages fuel url s)
  | 0, _, _, hs => hs
  | fuel + 1, url, s, hs => by
    simp only [crawlFuel]
    by_cases hg : pages ≤ s.visited.length ∨ url ∈ s.visited
    · rw [if_pos hg]; exact hs
    · rw [if_neg hg]
      push_neg at hg
      obtain ⟨hlen', hmem⟩ := hg
      have hstep : ∀ (acc : CrawlState) (link : String), crawlInv pages acc →
          crawlInv pages (linkStep e v
            (fun l a => crawlFuel e mr v prompt pages fuel l a) acc link) := by
        intro acc link hacc
        unfold linkStep
        split
        · split
          · exact crawl_inv e mr v prompt pages fuel link acc hacc
          · exact hacc
        · exact hacc
      cases he : e.extract url with
      | none =>
        cases v with
        | base => exact crawlInv_admitState e mr pages url s hs hlen' hmem
        | rag =>
          exact foldlPreserve (crawlInv pages) _ hstep (e.links url) _
            (crawlInv_admitState e mr pages url s hs hlen' hmem)
      | some texts =>
        exact foldlPreserve (crawlInv pages) _ hstep (e.links url) _
          (crawlInv_extract e mr pages prompt url texts s hs hlen' hmem)

/-! ### Fuel adequacy

The Python recursion carries no fuel; the fuel index is adequate as soon as
it covers the remaining budget, because every admission shrinks the
remaining budget by one.  Hence a fuel of pages is as good as any larger
fuel when starting from an empty visited set: recursion depth is bounded by
the page budget. -/

theorem crawl_fuel_step (e : Env) (mr : Nat) (v : Variant) (prompt : String)
    (pages : Nat) :
    ∀ (fuel : Nat) (url : String) (s : CrawlState),
      pages - s.visited.length ≤ fuel →
      crawlFuel e mr v prompt pages fuel url s =
        crawlFuel e mr v prompt pages (fuel + 1) url s
  | 0, url, s, h => by
    have hp : pages ≤ s.visited.length := by omega
    simp only [crawlFuel]
    rw [if_pos (Or.inl hp)]
  | fuel + 1, url, s, h => by
    conv_lhs => simp only [crawlFuel]
    conv_rhs => simp only [crawlFuel]
    by_cases hg : pages ≤ s.visited.length ∨ url ∈ s.visited
    · rw [if_pos hg, if_pos hg]
    · rw [if_neg hg, if_neg hg]
      push_neg at hg
      have hlen : s.visited.length < pages := hg.1
      have hcong : ∀ (s₀ : CrawlState), s₀.visited.length = s.visited.length + 1 →
          (e.links url).foldl
              (linkStep e v (fun l a => crawlFuel e mr v prompt pages fuel l a)) s₀ =
            (e.links url).foldl
              (linkStep e v (fun l a => crawlFuel e mr v prompt pages (fuel + 1) l a)) s₀ := by
        intro s₀ hs₀
        refine foldlCongr (fun acc => s.visited.length + 1 ≤ acc.visited.length) _ _
          ?_ ?_ (e.links url) s₀ (by omega)
        · intro acc link hacc
          unfold linkStep
          split
          · split
            · exact crawl_fuel_step e mr v prompt pages fuel link acc (by omega)
            · rfl
          · rfl
        · intro acc link hacc
          have := stateLe_length (by
            unfold linkStep
            split
            · split
              · exact crawl_mono e mr v prompt pages fuel link acc
              · exact stateLe_refl acc
            · exact stateLe_refl acc :
            stateLe acc (linkStep e v
              (fun l a => crawlFuel e mr v prompt pages fuel l a) acc link))
          omega
      cases he : e.extract url with
      | none =>
        cases v with
        | base => rfl
        | rag =>
          exact hcong (admitState e mr url s) (by simp [admitState])
      | some texts =>
        exact hcong (extractState e mr prompt url texts s) (by simp [extractState])

theorem crawl_fuel_ge (e : Env) (mr : Nat) (v : Variant) (prompt : String)
    (pages : Nat) (url : String) (s : CrawlState) (fuel : Nat)
    (h : pages - s.visited.length ≤ fuel) :
    ∀ (k : Nat), crawlFuel e mr v prompt pages (fuel + k) url s =
      crawlFuel e mr v prompt pages fuel url s
  | 0 => rfl
  | k + 1 => by
    have h1 : crawlFuel e mr v prompt pages (fuel + k) url s =
        crawlFuel e mr v prompt pages (fuel + k + 1) url s :=
      crawl_fuel_step e mr v prompt pages (fuel + k) url s (by omega)
    rw [show fuel + (k + 1) = fuel + k + 1 by omega, ← h1,
      crawl_fuel_ge e mr v prompt pages url s fuel h k]

/-! ### Properties of the base relevance filter -/

theorem filterAux_mem (lem : String → List String) :
    ∀ (l : List Record) (seen : List String) (r : Record),
      r ∈ filterAux lem l seen →
      is_relevant lem (strToLower r.content) = true ∧
        seen.contains (strToLower r.content) = false
  | [], _, _, hr => absurd hr (List.not_mem_nil _)
  | item :: rest, seen, r, hr => by
    by_cases hguard : (is_relevant lem (strToLower item.content) &&
        !seen.contains (strToLower item.content)) = true
    · rw [filterAux, if_pos hguard] at hr
      rcases List.mem_cons.mp hr with hhead | htail
      · subst hhead
        obtain ⟨h1, h2⟩ := Bool.and_eq_true_iff.mp hguard
        exact ⟨h1, by simpa using h2⟩
      · have := filterAux_mem lem rest (strToLower item.content :: seen) r htail
        refine ⟨this.1, ?_⟩
        have h2 := this.2
        simp only [List.contains_cons, Bool.or_eq_false_iff] at h2
        exact h2.2
    · rw [filterAux, if_neg hguard] at hr
      exact filterAux_mem lem rest seen r hr

theorem filterAux_nodup (lem : String → List String) :
    ∀ (l : List Record) (seen : List String),
      ((filterAux lem l seen).map (fun r => strToLower r.content)).Nodup
  | [], _ => List.nodup_nil
  | item :: rest, seen => by
    by_cases hguard : (is_relevant lem (strToLower item.content) &&
        !seen.contains (strToLower item.content)) = true
    · rw [filterAux, if_pos hguard]
      rw [List.map_cons, List.nodup_cons]
      constructor
      · intro hmem
        obtain ⟨r, hr, hc⟩ := List.mem_map.mp hmem
        have := (filterAux_mem lem rest (strToLower item.content :: seen) r hr).2
        simp only [List.contains_cons, Bool.or_eq_false_iff] at this
        have hne : (strToLower r.content == strToLower item.content) = false := this.1
        rw [hc] at hne
        simp at hne
      · exact filterAux_nodup lem rest (strToLower item.content :: seen)
    · rw [filterAux, if_neg hguard]
      exact filterAux_nodup lem rest seen

theorem filterAux_fixed (lem : String → List String) :
    ∀ (l : List Record) (seen : List String),
      (∀ r ∈ l, is_relevant lem (strToLower r.content) = true) →
      ((l.map (fun r => strToLower r.content)).Nodup) →
      (∀ r ∈ l, seen.contains (strToLower r.content) = false) →
      filterAux lem l seen = l
  | [], _, _, _, _ => rfl
  | item :: rest, seen, h1, h2, h3 => by
    have hrel := h1 item (List.mem_cons_self _ _)
    have hseen := h3 item (List.mem_cons_self _ _)
    have hguard : (is_relevant lem (strToLower item.content) &&
        !seen.contains (strToLower item.content)) = true := by
      rw [hrel, hseen]; rfl
    rw [filterAux, if_pos hguard]
    rw [List.map_cons, List.nodup_cons] at h2
    refine congrArg (item :: ·) (filterAux_fixed lem rest _ ?_ h2.2 ?_)
    · exact fun r hr => h1 r (List.mem_cons_of_mem _ hr)
    · intro r hr
      simp only [List.contains_cons, Bool.or_eq_false_iff]
      refine ⟨?_, h3 r (List.mem_cons_of_mem _ hr)⟩
      have : strToLower r.content ∈ rest.map (fun r => strToLower r.content) :=
        List.mem_map.mpr ⟨r, hr, rfl⟩
      have hne : strToLower r.content ≠ strToLower item.content := by
        intro heq
        exact h2.1 (heq ▸ this)
      simpa using hne

/-! ### Whitespace normalization

The code strips the ends first and then collapses every whitespace run; the
specification words collapse every run and trim the ends.  The two
pipelines commute, so the results agree. -/

theorem dropTrailingWs_cons (c : Char) (y : List Char) :
    dropTrailingWs (c :: y) =
      if (dropTrailingWs y).isEmpty && isPyWs c then [] else c :: dropTrailingWs y := rfl

theorem dropTrailingWs_nil_iff : ∀ (z : List Char),
    dropTrailingWs z = [] ↔ z.all isPyWs = true
  | [] => by simp [dropTrailingWs]
  | c :: z => by
    rw [dropTrailingWs_cons, List.all_cons]
    cases hz : dropTrailingWs z with
    | nil =>
      have hall : z.all isPyWs = true := (dropTrailingWs_nil_iff z).mp hz
      cases hc : isPyWs c <;> simp [hall, hc]
    | cons a l =>
      have hall : ¬ z.all isPyWs = true := fun h => by
        rw [(dropTrailingWs_nil_iff z).mpr h] at hz; cases hz
      simp [hall]

theorem allWs_collapse_true : ∀ (y : List Char),
    y.all isPyWs = true → collapseWsAux true y = []
  | [], _ => rfl
  | c :: y, h => by
    rw [List.all_cons, Bool.and_eq_true_iff] at h
    rw [collapseWsAux, if_pos h.1]
    exact allWs_collapse_true y h.2

theorem collapse_allWs : ∀ (y : List Char),
    (collapseWsAux true y).all isPyWs = true → y.all isPyWs = true
  | [], _ => rfl
  | c :: y, h => by
    by_cases hc : isPyWs c = true
    · rw [collapseWsAux, if_pos hc] at h
      rw [List.all_cons, hc]
      exact collapse_allWs y h
    · rw [collapseWsAux, if_neg hc] at h
      rw [List.all_cons, Bool.and_eq_true_iff] at h
      exact absurd h.1 hc

theorem collapseF_consWs {c : Char} (hc : isPyWs c = true) (y : List Char) :
    collapseWsAux false (c :: y) = ' ' :: collapseWsAux true y := by
  simp [collapseWsAux, hc]

theorem collapseT_consWs {c : Char} (hc : isPyWs c = true) (y : List Char) :
    collapseWsAux true (c :: y) = collapseWsAux true y := by
  simp [collapseWsAux, hc]

theorem collapse_consNonWs (b : Bool) {c : Char} (hc : isPyWs c = false)
    (y : List Char) : collapseWsAux b (c :: y) = c :: collapseWsAux false y := by
  simp [collapseWsAux, hc]

theorem collapse_dropTrailing :
    ∀ (x : List Char),
      collapseWsAux false (dropTrailingWs x) =
          dropTrailingWs (collapseWsAux false x) ∧
        collapseWsAux true (dropTrailingWs x) =
          dropTrailingWs (collapseWsAux true x)
  | [] => ⟨rfl, rfl⟩
  | c :: y => by
    obtain ⟨ihF, ihT⟩ := collapse_dropTrailing y
    cases hc : isPyWs c with
    | true =>
      cases hTy : dropTrailingWs y with
      | nil =>
        have hall : y.all isPyWs = true := (dropTrailingWs_nil_iff y).mp hTy
        have hAt : collapseWsAux true y = [] := allWs_collapse_true y hall
        have hL : dropTrailingWs (c :: y) = [] := by
          rw [dropTrailingWs_cons, hTy]
          simp [hc]
        constructor
        · rw [hL, collapseF_consWs hc, hAt]
          rfl
        · rw [hL, collapseT_consWs hc, hAt]
          rfl
      | cons a l =>
        have hne : dropTrailingWs (collapseWsAux true y) ≠ [] := by
          intro h0
          have := collapse_allWs y ((dropTrailingWs_nil_iff _).mp h0)
          rw [(dropTrailingWs_nil_iff y).mpr this] at hTy
          cases hTy
        have hL : dropTrailingWs (c :: y) = c :: dropTrailingWs y := by
          rw [dropTrailingWs_cons, hTy]
          simp
        constructor
        · rw [hL, collapseF_consWs hc, ihT, collapseF_consWs hc, dropTrailingWs_cons]
          cases hA : dropTrailingWs (collapseWsAux true y) with
          | nil => exact absurd hA hne
          | cons b m => simp
        · rw [hL, collapseT_consWs hc, ihT, collapseT_consWs hc]
    | false =>
      have hL : dropTrailingWs (c :: y) = c :: dropTrailingWs y := by
        rw [dropTrailingWs_cons]
        simp [hc]
      constructor
      · rw [hL, collapse_consNonWs false hc, ihF, collapse_consNonWs false hc,
          dropTrailingWs_cons]
        simp [hc]
      · rw [hL, collapse_consNonWs true hc, ihF, collapse_consNonWs true hc,
          dropTrailingWs_cons]
        simp [hc]

theorem dropWhile_collapse_true (z : List Char) :
    (collapseWsAux true z).dropWhile isPyWs =
      (collapseWsAux false z).dropWhile isPyWs := by
  cases z with
  | nil => rfl
  | cons d w =>
    cases hd : isPyWs d with
    | true =>
      rw [collapseT_consWs hd, collapseF_consWs hd, List.dropWhile_cons,
        if_pos (show isPyWs ' ' = true from rfl)]
    | false => rw [collapse_consNonWs true hd, collapse_consNonWs false hd]

theorem dropWhile_collapse (l : List Char) :
    (collapseWsAux false l).dropWhile isPyWs =
      collapseWsAux false (l.dropWhile isPyWs) := by
  induction l with
  | nil => rfl
  | cons c y ih =>
    cases hc : isPyWs c with
    | true =>
      rw [collapseF_consWs hc, List.dropWhile_cons, List.dropWhile_cons]
      simp only [hc, if_pos, show isPyWs ' ' = true from rfl]
      rw [dropWhile_collapse_true, ih]
    | false =>
      rw [collapse_consNonWs false hc, List.dropWhile_cons, List.dropWhile_cons]
      simp [hc, collapse_consNonWs false hc]

theorem collapse_strip_commute (l : List Char) :
    collapseWs (stripPy l) = stripPy (collapseWs l) := by
  unfold collapseWs stripPy
  rw [(collapse_dropTrailing (l.dropWhile isPyWs)).1, dropWhile_collapse]

/-! ### The retry loop under uninterrupted timeouts -/

/-- The action trace of k all-timeout iterations starting at loop index a. -/
def navTraceAll : Nat → Nat → List NavAction
  | _, 0 => []
  | a, k + 1 => NavAction.attemptNav :: NavAction.sleep (2 ^ a) :: navTraceAll (a + 1) k

theorem navGo_all_timeout (outcome : Nat → NavOutcome) :
    ∀ (k a : Nat), (∀ i, i < k → outcome (a + i) = NavOutcome.timeout) →
      navGo outcome a k = (navTraceAll a k, NavResult.errTimeoutExhausted)
  | 0, _, _ => rfl
  | k + 1, a, h => by
    have h0 : outcome a = NavOutcome.timeout := by simpa using h 0 (Nat.succ_pos k)
    have ih := navGo_all_timeout outcome k (a + 1) (fun i hi => by
      rw [show a + 1 + i = a + (i + 1) by omega]
      exact h (i + 1) (by omega))
    rw [navGo, h0]
    simp only [ih]
    rfl

theorem attemptCount_navTraceAll : ∀ (a k : Nat), attemptCount (navTraceAll a k) = k
  | _, 0 => rfl
  | a, k + 1 => by
    simp only [navTraceAll, attemptCount, List.countP_cons]
    have := attemptCount_navTraceAll (a + 1) k
    simp only [attemptCount] at this
    simp [this]

theorem sleepsOf_navTraceAll : ∀ (a k : Nat),
    sleepsOf (navTraceAll a k) = (List.range' a k).map (fun i => 2 ^ i)
  | _, 0 => rfl
  | a, k + 1 => by
    simp only [navTraceAll, sleepsOf, List.filterMap_cons]
    have := sleepsOf_navTraceAll (a + 1) k
    simp only [sleepsOf] at this
    simp only [this, List.range'_succ, List.map_cons]

/-! ### Claim-level helper lemmas -/

theorem foldl_linkStep_le (e : Env) (mr : Nat) (v : Variant) (prompt : String)
    (pages fuel : Nat) (links : List String) (s₀ : CrawlState) :
    stateLe s₀ (links.foldl
      (linkStep e v (fun l a => crawlFuel e mr v prompt pages fuel l a)) s₀) :=
  foldlRel stateLe (fun _ _ _ => stateLe_trans) stateLe_refl _
    (fun acc link => by
      unfold linkStep
      split
      · split
        · exact crawl_mono e mr v prompt pages fuel link acc
        · exact stateLe_refl acc
      · exact stateLe_refl acc) links s₀

/-- In the base variant, a page whose extraction fails is admitted,
navigated, attempted, and then the call returns: the resulting state is
exactly the admission state — no records and no descent. -/
theorem crawl_base_extract_none (e : Env) (mr : Nat) (prompt : String)
    (pages fuel : Nat) (url : String) (s : CrawlState)
    (hmem : url ∉ s.visited) (hlen : s.visited.length < pages)
    (hext : e.extract url = none) :
    crawlFuel e mr Variant.base prompt pages (fuel + 1) url s =
      admitState e mr url s := by
  have hg : ¬ (pages ≤ s.visited.length ∨ url ∈ s.visited) := by
    rintro (h | h)
    · omega
    · exact hmem h
  simp only [crawlFuel]
  rw [if_neg hg, hext]

/-- One unfolding step of the crawl on an admissible address with a
successful extraction. -/
theorem crawlFuel_succ_extract (e : Env) (mr : Nat) (v : Variant)
    (prompt : String) (pages fuel : Nat) (url : String) (s : CrawlState)
    (texts : List String)
    (hg : ¬ (pages ≤ s.visited.length ∨ url ∈ s.visited))
    (hext : e.extract url = some texts) :
    crawlFuel e mr v prompt pages (fuel + 1) url s =
      (e.links url).foldl
        (linkStep e v (fun l a => crawlFuel e mr v prompt pages fuel l a))
        (extractState e mr prompt url texts s) := by
  simp only [crawlFuel]
  rw [if_neg hg, hext]

/-- An admissible address ends up in the visited set of its own crawl. -/
theorem crawl_admits (e : Env) (mr : Nat) (v : Variant) (prompt : String)
    (pages fuel : Nat) (url : String) (s : CrawlState)
    (hmem : url ∉ s.visited) (hlen : s.visited.length < pages) :
    url ∈ (crawlFuel e mr v prompt pages (fuel + 1) url s).visited := by
  have hg : ¬ (pages ≤ s.visited.length ∨ url ∈ s.visited) := by
    rintro (h | h)
    · omega
    · exact hmem h
  simp only [crawlFuel]
  rw [if_neg hg]
  cases he : e.extract url with
  | none =>
    cases v with
    | base => exact List.mem_cons_self _ _
    | rag =>
      obtain ⟨t, ht⟩ :=
        (foldl_linkStep_le e mr Variant.rag prompt pages fuel (e.links url)
          (admitState e mr url s)).1
      rw [ht]
      exact List.mem_append_right t (List.mem_cons_self _ _)
  | some texts =>
    obtain ⟨t, ht⟩ :=
      (foldl_linkStep_le e mr v prompt pages fuel (e.links url)
        (extractState e mr prompt url texts s)).1
    rw [ht]
    exact List.mem_append_right t (List.mem_cons_self _ _)

/-! ### The claims -/

/-- Claim C7: on repeated timeouts the navigator sleeps 2 to the power
attempt seconds after the 0-indexed attempt, and issues exactly max_retries
navigation attempts before giving up on the timeout-exhausted log path.
The loop is identical in rufus.py and rufus_rag.py. -/
theorem C7_backoff_and_retry_count (outcome : Nat → NavOutcome) (max_retries : Nat)
    (h : ∀ i, i < max_retries → outcome i = NavOutcome.timeout) :
    attemptCount (navigate_to_url outcome max_retries).1 = max_retries ∧
    sleepsOf (navigate_to_url outcome max_retries).1 =
      (List.range max_retries).map (fun i => 2 ^ i) ∧
    (navigate_to_url outcome max_retries).2 = NavResult.errTimeoutExhausted := by
  have hall := navGo_all_timeout outcome max_retries 0 (fun i hi => by
    rw [show (0 : Nat) + i = i by omega]
    exact h i hi)
  unfold navigate_to_url
  rw [hall]
  refine ⟨attemptCount_navTraceAll 0 max_retries, ?_, rfl⟩
  rw [sleepsOf_navTraceAll 0 max_retries, List.range_eq_range']

/-- Witness for C7 at the default max_retries of 3: three attempts,
sleeps of 1, 2 and 4 seconds, and the failed-after-retries outcome. -/
theorem C7_backoff_witness :
    attemptCount (navigate_to_url (fun _ => NavOutcome.timeout) 3).1 = 3 ∧
    sleepsOf (navigate_to_url (fun _ => NavOutcome.timeout) 3).1 = [1, 2, 4] ∧
    (navigate_to_url (fun _ => NavOutcome.timeout) 3).2 =
      NavResult.errTimeoutExhausted := by
  have h := C7_backoff_and_retry_count (fun _ => NavOutcome.timeout) 3
    (fun i _ => rfl)
  exact ⟨h.1, h.2.1.trans (by decide), h.2.2⟩

/-- A render target serving a page that links to itself (Scenario B). -/
def eSelfLoop : Env where
  navAttempts := fun _ _ => NavOutcome.success
  extract := fun _ => some ["job fair"]
  links := fun u => [u]
  gotoAttempt := fun _ _ => true

/-- Claim C8: crawls terminate on every link graph, cyclic ones included.
First part: an address already in the visited set is rejected at admission
(the crawl of it is the identity on the state).  Second part: the fuel
index bounding the embedded recursion never matters beyond the page
budget — any fuel of at least pages computes the same crawl as fuel
pages — so recursion depth is bounded by the page budget and by no
explicit depth counter.  Both crawl variants are covered. -/
theorem C8_cyclic_termination :
    (∀ (e : Env) (mr : Nat) (v : Variant) (prompt : String) (pages fuel : Nat)
        (url : String) (s : CrawlState), url ∈ s.visited →
        crawlFuel e mr v prompt pages fuel url s = s) ∧
    (∀ (e : Env) (mr : Nat) (v : Variant) (prompt : String) (pages fuel : Nat)
        (url : String), pages ≤ fuel →
        crawlFuel e mr v prompt pages fuel url (initCrawlState []) =
          crawlFuel e mr v prompt pages pages url (initCrawlState [])) := by
  constructor
  · intro e mr v prompt pages fuel url s hmem
    cases fuel with
    | zero => rfl
    | succ fuel =>
      simp only [crawlFuel]
      rw [if_pos (Or.inr hmem)]
  · intro e mr v prompt pages fuel url h
    rw [show fuel = pages + (fuel - pages) by omega]
    exact crawl_fuel_ge e mr v prompt pages url (initCrawlState []) pages
      (by simp [initCrawlState]) (fuel - pages)

/-- Witness for C8 on the self-loop page of Scenario B: a state already
holding the seed is left unchanged, surplus fuel computes the same crawl
as fuel equal to the budget, and the self-loop crawl visits the seed
exactly once. -/
theorem C8_cyclic_termination_witness :
    crawlFuel eSelfLoop 3 Variant.base "p" 3 3 "http://a"
        ⟨["http://a"], [], []⟩ = ⟨["http://a"], [], []⟩ ∧
    crawlFuel eSelfLoop 3 Variant.base "p" 2 7 "http://a" (initCrawlState []) =
      crawlFuel eSelfLoop 3 Variant.base "p" 2 2 "http://a" (initCrawlState []) ∧
    (crawlFuel eSelfLoop 3 Variant.base "p" 3 3 "http://a"
      (initCrawlState [])).visited = ["http://a"] :=
  ⟨C8_cyclic_termination.1 eSelfLoop 3 Variant.base "p" 3 3 "http://a" _
      (by decide),
    C8_cyclic_termination.2 eSelfLoop 3 Variant.base "p" 2 7 "http://a"
      (by decide),
    by decide⟩

/-- Claim C9: the extractor emits, per matched element, the element text
with the ends trimmed and every internal whitespace run collapsed to a
single space.  The code pipeline (strip, then the run-collapsing regex) is
normContent; the specification wording (collapse every run, trim the ends)
is specNormalize; they agree on every string, and the concrete example of
the specification evaluates as stated. -/
theorem C9_whitespace_normalization :
    (∀ s : String, normContent s = specNormalize s) ∧
    normContent "Hiring   now\n\tfor  interns" = "Hiring now for interns" :=
  ⟨fun s => congrArg String.mk (collapse_strip_commute s.data), by decide⟩

/-- Claim C10: the base relevance filter is idempotent — a second
application of filter_data to its own output returns it unchanged. -/
theorem C10_filter_idempotent (lem : String → List String) (d : List Record) :
    filter_data lem (filter_data lem d) = filter_data lem d :=
  filterAux_fixed lem (filter_data lem d) []
    (fun r hr => (filterAux_mem lem d [] r hr).1)
    (filterAux_nodup lem d [])
    (fun _ _ => rfl)

/-- A render target where the seed times out on every navigation attempt,
yet the (stale) page still yields an element and an outbound link. -/
def eNavFail : Env where
  navAttempts := fun u _ =>
    if u = "http://a" then NavOutcome.timeout else NavOutcome.success
  extract := fun u => if u = "http://a" then some ["job fair"] else none
  links := fun u => if u = "http://a" then ["http://b"] else []
  gotoAttempt := fun _ _ => true

/-- Claim C1 counterexample: for the seed of eNavFail navigation fails
(timeout on all 3 attempts), yet the crawl does not stop there —
extraction is attempted, the page contributes a record, and its link is
discovered and crawled.  _navigate_to_url swallows every failure and
_crawl_links proceeds unconditionally. -/
theorem C1_counterexample :
    navResultOf eNavFail 3 "http://a" = NavResult.errTimeoutExhausted ∧
    Event.extractAttempted "http://a" ∈
      (crawlFuel eNavFail 3 Variant.base "p" 3 3 "http://a"
        (initCrawlState [])).trace ∧
    (crawlFuel eNavFail 3 Variant.base "p" 3 3 "http://a"
        (initCrawlState [])).all_data = [⟨"p", 1, "job fair"⟩] ∧
    "http://b" ∈ (crawlFuel eNavFail 3 Variant.base "p" 3 3 "http://a"
      (initCrawlState [])).visited :=
  ⟨by decide, by decide, by decide, by decide⟩

/-- Claim C1 (amended): navigation failures are swallowed, so the crawl
still attempts extraction on the failed address; when that extraction
also fails, the address is marked visited, contributes zero records and
no links are discovered from it, the crawl of it being exactly the
admission step — so sibling and ancestor crawling continues from that
state unaffected. -/
theorem C1_nav_failure_swallowed (e : Env) (mr : Nat) (prompt : String)
    (pages fuel : Nat) (url : String) (s : CrawlState)
    (_hfail : navResultOf e mr url ≠ NavResult.ok)
    (hmem : url ∉ s.visited) (hlen : s.visited.length < pages)
    (hext : e.extract url = none) :
    crawlFuel e mr Variant.base prompt pages (fuel + 1) url s =
      admitState e mr url s ∧
    Event.extractAttempted url ∈
      (crawlFuel e mr Variant.base prompt pages (fuel + 1) url s).trace ∧
    (crawlFuel e mr Variant.base prompt pages (fuel + 1) url s).all_data =
      s.all_data ∧
    (crawlFuel e mr Variant.base prompt pages (fuel + 1) url s).visited =
      url :: s.visited := by
  have heq := crawl_base_extract_none e mr prompt pages fuel url s hmem hlen hext
  refine ⟨heq, ?_, by rw [heq]; rfl, by rw [heq]; rfl⟩
  rw [heq]
  simp [admitState]

/-- An all-failing render target: every navigation attempt times out and
every extraction fails. -/
def eAllFail : Env where
  navAttempts := fun _ _ => NavOutcome.timeout
  extract := fun _ => none
  links := fun _ => []
  gotoAttempt := fun _ _ => true

/-- Witness for the amended C1 at a concrete address whose navigation and
extraction both fail. -/
theorem C1_nav_failure_swallowed_witness :
    crawlFuel eAllFail 3 Variant.base "p" 3 3 "http://a" (initCrawlState []) =
      admitState eAllFail 3 "http://a" (initCrawlState []) ∧
    Event.extractAttempted "http://a" ∈
      (crawlFuel eAllFail 3 Variant.base "p" 3 3 "http://a"
        (initCrawlState [])).trace ∧
    (crawlFuel eAllFail 3 Variant.base "p" 3 3 "http://a"
        (initCrawlState [])).all_data = [] ∧
    (crawlFuel eAllFail 3 Variant.base "p" 3 3 "http://a"
        (initCrawlState [])).visited = ["http://a"] :=
  C1_nav_failure_swallowed eAllFail 3 "p" 3 2 "http://a" (initCrawlState [])
    (by decide) (by decide) (by decide) (by decide)

/-- A two-scrape schedule: the first render target serves one page with a
job record; the second fails every extraction, so a second scrape can
only return what persisted in the client. -/
def eFirstScrape : Env where
  navAttempts := fun _ _ => NavOutcome.success
  extract := fun _ => some ["job fair"]
  links := fun _ => []
  gotoAttempt := fun _ _ => true

/-- Claim C2 counterexample: the second scrape call runs against a render
target (eAllFail) from which nothing can be extracted, yet it returns the
record extracted by the first call on the same client — self.all_data is
created in the constructor and never reset per invocation. -/
theorem C2_counterexample :
    (scrape lemModel
        (scrape lemModel RufusClient.make eFirstScrape "http://a" "p" 3).2
        eAllFail "http://b" "p" 3).1 = [⟨"p", 1, "job fair"⟩] := by
  decide

/-- Claim C2 (amended): the raw-record accumulator lives in the client,
not in the invocation: scrape returns the relevance-filtered contents of
self.all_data, and self.all_data after a scrape extends the accumulator
the client already carried, so records from earlier invocations on the
same client are part of every later result set. -/
theorem C2_accumulator_persists (lem : String → List String) (c : RufusClient)
    (e : Env) (url prompt : String) (pages : Nat) :
    (scrape lem c e url prompt pages).1 =
      filter_data lem (scrape lem c e url prompt pages).2.all_data ∧
    ∃ u, (scrape lem c e url prompt pages).2.all_data = c.all_data ++ u := by
  constructor
  · rfl
  · exact (crawl_mono e c.max_retries Variant.base prompt pages pages url
      (initCrawlState c.all_data)).2

/-- Claim C3: with page budget N, the visited set never exceeds N
addresses, holds no duplicates, and every navigation is preceded by an
admission that checks the budget first — the number of navigation events
always equals the size of the visited set, hence never exceeds N.  The
input state is only ever extended, so the same bounds hold at every
intermediate point of the crawl.  Both crawl variants are covered. -/
theorem C3_budget_invariant (e : Env) (mr : Nat) (v : Variant) (prompt : String)
    (pages fuel : Nat) (url : String) (s : CrawlState)
    (hnd : s.visited.Nodup) (hlen : s.visited.length ≤ pages)
    (hnav : navCount s.trace = s.visited.length) :
    (crawlFuel e mr v prompt pages fuel url s).visited.Nodup ∧
    (crawlFuel e mr v prompt pages fuel url s).visited.length ≤ pages ∧
    navCount (crawlFuel e mr v prompt pages fuel url s).trace =
      (crawlFuel e mr v prompt pages fuel url s).visited.length ∧
    ∃ t, (crawlFuel e mr v prompt pages fuel url s).visited = t ++ s.visited :=
  have h := crawl_inv e mr v prompt pages fuel url s ⟨hnd, hlen, hnav⟩
  ⟨h.1, h.2.1, h.2.2, (crawl_mono e mr v prompt pages fuel url s).1⟩

/-- Witness for C3: a concrete crawl with budget 2 over a page graph with
an outbound link, from the initial empty state. -/
theorem C3_budget_invariant_witness :
    (crawlFuel eNavFail 3 Variant.base "p" 2 2 "http://a"
      (initCrawlState [])).visited.Nodup ∧
    (crawlFuel eNavFail 3 Variant.base "p" 2 2 "http://a"
      (initCrawlState [])).visited.length ≤ 2 ∧
    navCount (crawlFuel eNavFail 3 Variant.base "p" 2 2 "http://a"
        (initCrawlState [])).trace =
      (crawlFuel eNavFail 3 Variant.base "p" 2 2 "http://a"
        (initCrawlState [])).visited.length ∧
    ∃ t, (crawlFuel eNavFail 3 Variant.base "p" 2 2 "http://a"
      (initCrawlState [])).visited = t ++ (initCrawlState []).visited :=
  C3_budget_invariant eNavFail 3 Variant.base "p" 2 2 "http://a"
    (initCrawlState []) (by decide) (by decide) (by decide)

/-- Claim C4 counterexample: the filter of rufus_rag.py keeps every copy of
a duplicated record — its output for two records with equal lowercased
content contains both, so the dedup invariant fails for that cited code. -/
theorem C4_counterexample :
    ¬ ((rag_filter_data [⟨"p", 1, "job"⟩, ⟨"p", 2, "job"⟩]).map
        (fun r => strToLower r.content)).Nodup := by
  decide

/-- Claim C4 (amended): the base filter (filter_data of rufus.py) never
outputs two records with equal lowercased content, for every lemmatizer
and every input record list; the rag variant performs no deduplication. -/
theorem C4_filter_dedup (lem : String → List String) (data : List Record) :
    ((filter_data lem data).map (fun r => strToLower r.content)).Nodup :=
  filterAux_nodup lem data []

/-- Claim C5 counterexample: the rag filter admits by substring
containment, so the record with content jobless passes (job occurs inside
it) although none of its lemmatized tokens is a keyword — jobless is an
uninflected dictionary word equal to its own base form. -/
theorem C5_counterexample :
    rag_filter_data [⟨"p", 1, "jobless"⟩] = [⟨"p", 1, "jobless"⟩] ∧
    (lemModel (strToLower "jobless")).all
      (fun t => !keywords.contains t) = true :=
  ⟨by decide, by decide⟩

/-- Claim C5 (amended): in the base filter every output record is
relevant — some lemmatized token of its lowercased content equals a
keyword — for every lemmatizer; the rag variant matches substrings and
does not have this property. -/
theorem C5_filter_relevant (lem : String → List String) (data : List Record)
    (r : Record) (hr : r ∈ filter_data lem data) :
    (lem (strToLower r.content)).any (fun t => keywords.contains t) = true :=
  (filterAux_mem lem data [] r hr).1

/-- Witness for the amended C5 at a concrete record kept by the filter. -/
theorem C5_filter_relevant_witness :
    (⟨"p", 1, "Job fair"⟩ : Record) ∈
      filter_data lemModel [⟨"p", 1, "Job fair"⟩] ∧
    (lemModel (strToLower "Job fair")).any
      (fun t => keywords.contains t) = true :=
  ⟨by decide,
    C5_filter_relevant lemModel [⟨"p", 1, "Job fair"⟩] ⟨"p", 1, "Job fair"⟩
      (by decide)⟩

/-- A render target where the parent page fails extraction but links to a
child page (used against the rag crawl). -/
def eRagDescent : Env where
  navAttempts := fun _ _ => NavOutcome.success
  extract := fun u => if u = "http://p" then none else some ["x"]
  links := fun u => if u = "http://p" then ["http://c"] else []
  gotoAttempt := fun _ _ => true

/-- Claim C6 counterexample: in rufus_rag.py an extraction failure does
not truncate the subtree of the page — _crawl_links catches the failure
and falls through to link discovery, so the child of the failed parent is
still crawled. -/
theorem C6_counterexample :
    eRagDescent.extract "http://p" = none ∧
    "http://c" ∈ (crawlFuel eRagDescent 3 Variant.rag "p" 3 3 "http://p"
      (initCrawlState [])).visited :=
  ⟨by decide, by decide⟩

/-- Claim C6 (amended): in the base variant an extraction failure
truncates exactly the subtree of the failing page: the crawl of it is the
admission step alone (no records contributed, no links discovered, no
descent), and crawling of sibling addresses proceeds — a sibling of the
failed page that is admissible is still visited.  In the rag variant link
discovery continues even after an extraction failure. -/
theorem C6_extract_failure_branch_local :
    (∀ (e : Env) (mr : Nat) (prompt : String) (pages fuel : Nat) (url : String)
        (s : CrawlState), url ∉ s.visited → s.visited.length < pages →
        e.extract url = none →
        crawlFuel e mr Variant.base prompt pages (fuel + 1) url s =
          admitState e mr url s) ∧
    (∀ (e : Env) (mr : Nat) (prompt : String) (pages fuel : Nat)
        (parent x y : String) (s : CrawlState) (texts : List String),
        e.links parent = [x, y] → e.extract parent = some texts →
        e.extract x = none →
        parent ∉ s.visited → s.visited.length + 3 ≤ pages →
        strStartsWith x "http" = true → strStartsWith y "http" = true →
        gotoSucceeds e Variant.base x = true →
        gotoSucceeds e Variant.base y = true →
        x ∉ s.visited → y ∉ s.visited → x ≠ parent → y ≠ parent → y ≠ x →
        y ∈ (crawlFuel e mr Variant.base prompt pages (fuel + 2) parent
          s).visited) := by
  constructor
  · exact fun e mr prompt pages fuel url s hmem hlen hext =>
      crawl_base_extract_none e mr prompt pages fuel url s hmem hlen hext
  · intro e mr prompt pages fuel parent x y s texts hlinks hextp hextx hpmem
      hbudget hxh hyh hxg hyg hxs hys hxp hyp hyx
    have hg : ¬ (pages ≤ s.visited.length ∨ parent ∈ s.visited) := by
      rintro (h | h)
      · omega
      · exact hpmem h
    rw [crawlFuel_succ_extract e mr Variant.base prompt pages (fuel + 1) parent
      s texts hg hextp, hlinks, List.foldl_cons, List.foldl_cons, List.foldl_nil]
    set s₀ := extractState e mr prompt parent texts s with hs₀
    have hs₀v : s₀.visited = parent :: s.visited := rfl
    have hxmem : x ∉ s₀.visited := by
      rw [hs₀v]
      intro hx
      rcases List.mem_cons.mp hx with h | h
      · exact hxp h
      · exact hxs h
    have hstep1 : linkStep e Variant.base
        (fun l a => crawlFuel e mr Variant.base prompt pages (fuel + 1) l a)
        s₀ x = admitState e mr x s₀ := by
      unfold linkStep
      rw [if_pos ⟨hxh, hxmem⟩, if_pos hxg]
      exact crawl_base_extract_none e mr prompt pages fuel x s₀ hxmem
        (by rw [hs₀v]; simp only [List.length_cons]; omega) hextx
    rw [hstep1]
    set s₁ := admitState e mr x s₀ with hs₁
    have hs₁v : s₁.visited = x :: parent :: s.visited := rfl
    have hymem : y ∉ s₁.visited := by
      rw [hs₁v]
      intro hy
      rcases List.mem_cons.mp hy with h | h
      · exact hyx h
      rcases List.mem_cons.mp h with h | h
      · exact hyp h
      · exact hys h
    have hstep2 : linkStep e Variant.base
        (fun l a => crawlFuel e mr Variant.base prompt pages (fuel + 1) l a)
        s₁ y = crawlFuel e mr Variant.base prompt pages (fuel + 1) y s₁ := by
      unfold linkStep
      rw [if_pos ⟨hyh, hymem⟩, if_pos hyg]
    rw [hstep2]
    exact crawl_admits e mr Variant.base prompt pages fuel y s₁ hymem
      (by rw [hs₁v]; simp only [List.length_cons]; omega)

/-- A render target for the witness of the amended C6: the parent yields a
record and two children, the first child fails extraction and the second
extracts normally. -/
def eSiblings : Env where
  navAttempts := fun _ _ => NavOutcome.success
  extract := fun u => if u = "http://x" then none else some ["job fair"]
  links := fun u => if u = "http://p" then ["http://x", "http://y"] else []
  gotoAttempt := fun _ _ => true

/-- Witness for the amended C6: the failed child is truncated to its
admission step, and its sibling is still visited. -/
theorem C6_extract_failure_branch_local_witness :
    crawlFuel eSiblings 3 Variant.base "p" 4 3 "http://x" (initCrawlState []) =
      admitState eSiblings 3 "http://x" (initCrawlState []) ∧
    "http://y" ∈ (crawlFuel eSiblings 3 Variant.base "p" 4 4 "http://p"
      (initCrawlState [])).visited :=
  ⟨C6_extract_failure_branch_local.1 eSiblings 3 "p" 4 2 "http://x"
      (initCrawlState []) (by decide) (by decide) (by decide),
    C6_extract_failure_branch_local.2 eSiblings 3 "p" 4 2 "http://p" "http://x"
      "http://y" (initCrawlState []) ["job fair"] (by decide) (by decide)
      (by decide) (by decide) (by decide) (by decide) (by decide) (by decide)
      (by decide) (by decide) (by decide) (by decide) (by decide) (by decide)⟩

end Rufus
